import Mathlib

/-!
Verification of the TerminalChess move core (package `gui` and `history`).

The Go source is shallowly embedded: the 8×8 board, the FEN
serializer/parser, the move applier `MovePiece`, the en-passant tracker,
the SAN history renderer and the check detector are translated into
executable Lean definitions.  The external chess library
(`corentings/chess`) is the spec's "legality oracle" (§6); it is kept
abstract as an `Oracle` structure whose fields mirror exactly the calls
the Go code makes, and concrete instances are supplied for evaluation.
-/

set_option maxRecDepth 4000

namespace TerminalChess

/-- Piece colors, `gui.Color`: `Black = iota`, `White`, `Undefined = -1`. -/
inductive Color where
  | Black
  | White
  | Undefined
  deriving DecidableEq, Repr

/-- Piece kinds, `gui.PieceType`: `King = iota`, …, `Pawn`, `Empty = -1`. -/
inductive PieceType where
  | King
  | Queen
  | Rook
  | Bishop
  | Knight
  | Pawn
  | Empty
  deriving DecidableEq, Repr

/-- Model of `gui.Piece`: a color/type pair. -/
structure Piece where
  color : Color
  typ : PieceType
  deriving DecidableEq, Repr

/-- Go's zero value for `Piece`: both fields are the zero enum value,
so an untouched array cell holds `{Black, King}`. -/
def zeroPiece : Piece := ⟨Color.Black, PieceType.King⟩

/-- The piece stored for an empty square, `{Undefined, Empty}`. -/
def emptyPiece : Piece := ⟨Color.Undefined, PieceType.Empty⟩

/-- Model of `gui.ChessBoard`: an 8×8 array of pieces, indexed row-major
(row 0 = rank 8). -/
abbrev ChessBoard := Fin 8 → Fin 8 → Piece

/-- Read `b[r][c]` for integer indices already known to be in bounds
(the Go code only indexes after its own bounds checks). -/
def cell (b : ChessBoard) (r c : Int) : Piece :=
  if h : 0 ≤ r ∧ r < 8 ∧ 0 ≤ c ∧ c < 8 then
    b ⟨r.toNat, by omega⟩ ⟨c.toNat, by omega⟩
  else zeroPiece

/-- Write `b[r][c] = p`.  Go panics on an out-of-range index, which is
modelled by `none`. -/
def setCell (b : ChessBoard) (r c : Int) (p : Piece) : Option ChessBoard :=
  if h : 0 ≤ r ∧ r < 8 ∧ 0 ≤ c ∧ c < 8 then
    some (fun i j =>
      if i = (⟨r.toNat, by omega⟩ : Fin 8) ∧ j = (⟨c.toNat, by omega⟩ : Fin 8) then p
      else b i j)
  else none

/-- Back-rank piece layout used by `NewChessBoard` for rows 0 and 7. -/
def backRank (c : Color) (j : Fin 8) : Piece :=
  if j = 0 ∨ j = 7 then ⟨c, PieceType.Rook⟩
  else if j = 1 ∨ j = 6 then ⟨c, PieceType.Knight⟩
  else if j = 2 ∨ j = 5 then ⟨c, PieceType.Bishop⟩
  else if j = 3 then ⟨c, PieceType.Queen⟩
  else ⟨c, PieceType.King⟩

/-- Model of `gui.NewChessBoard`: the standard starting placement (Black on rows
0–1, White on rows 6–7, rows 2–5 empty). -/
def newChessBoard : ChessBoard := fun i j =>
  if i = 0 then backRank Color.Black j
  else if i = 1 then ⟨Color.Black, PieceType.Pawn⟩
  else if i = 6 then ⟨Color.White, PieceType.Pawn⟩
  else if i = 7 then backRank Color.White j
  else emptyPiece

/-- Model of `gui.Cursor` (the `Selected` flag is irrelevant to `Move`). -/
structure Cursor where
  row : Int
  col : Int
  selected : Bool
  deriving DecidableEq, Repr

/-- Model of `gui.Cursor.Move`: each axis moves by its delta only when the result
stays inside `[0,7]`. -/
def Cursor.move (c : Cursor) (dRow dCol : Int) : Cursor :=
  let nextRow := c.row + dRow
  let nextCol := c.col + dCol
  { c with
    row := if 0 ≤ nextRow ∧ nextRow < 8 then nextRow else c.row,
    col := if 0 ≤ nextCol ∧ nextCol < 8 then nextCol else c.col }

/-! ## FEN serialization (`gui.ToFEN`) and parsing (`gui.NewChessBoardFromFEN`)

FEN strings are modelled as `List Char` (Go ranges over runes). -/

/-- The lowercase FEN letter for a piece type (`ToFEN`'s switch).  For
`Empty` the Go `rune` variable keeps its zero value; `ToFEN` never
reaches that case because empties are run-length counted. -/
def pieceTypeChar : PieceType → Char
  | PieceType.King => 'k'
  | PieceType.Queen => 'q'
  | PieceType.Rook => 'r'
  | PieceType.Bishop => 'b'
  | PieceType.Knight => 'n'
  | PieceType.Pawn => 'p'
  | PieceType.Empty => Char.ofNat 0

/-- The FEN letter for a piece: lowercase, then `c -= 32` (uppercase)
exactly when the color is White. -/
def pieceChar (p : Piece) : Char :=
  let c := pieceTypeChar p.typ
  if p.color = Color.White then Char.ofNat (c.toNat - 32) else c

/-- The single digit character for `n` (used with `1 ≤ n ≤ 8`). -/
def digitChar (n : Nat) : Char := Char.ofNat ('0'.toNat + n)

/-- Run-length encoding of one rank, mirroring `ToFEN`'s inner loop:
`empty` counts the empties seen since the last flush. -/
def encRowAux : List Piece → Nat → List Char
  | [], empty => if 0 < empty then [digitChar empty] else []
  | p :: rest, empty =>
    if p.typ = PieceType.Empty then encRowAux rest (empty + 1)
    else (if 0 < empty then [digitChar empty] else []) ++ pieceChar p :: encRowAux rest 0

/-- Run-length encoding of one rank. -/
def encRow (r : List Piece) : List Char := encRowAux r 0

/-- The pieces of row `i` of the board, left to right. -/
def rowPieces (b : ChessBoard) (i : Fin 8) : List Piece := List.ofFn (b i)

/-- Model of `ToFEN`'s turn field: `"w"` unless the turn is Black. -/
def turnChars (turn : Color) : List Char :=
  if turn = Color.Black then ['b'] else ['w']

/-- Model of `ToFEN`'s castling-rights field, computed purely from current
occupancy of the king/rook home squares; `"-"` when empty. -/
def castleChars (b : ChessBoard) : List Char :=
  let castle :=
    (if (b 7 4).typ = PieceType.King ∧ (b 7 4).color = Color.White then
      (if (b 7 7).typ = PieceType.Rook ∧ (b 7 7).color = Color.White then ['K'] else []) ++
      (if (b 7 0).typ = PieceType.Rook ∧ (b 7 0).color = Color.White then ['Q'] else [])
    else []) ++
    (if (b 0 4).typ = PieceType.King ∧ (b 0 4).color = Color.Black then
      (if (b 0 7).typ = PieceType.Rook ∧ (b 0 7).color = Color.Black then ['k'] else []) ++
      (if (b 0 0).typ = PieceType.Rook ∧ (b 0 0).color = Color.Black then ['q'] else [])
    else [])
  if castle = [] then ['-'] else castle

/-- Model of `ToFEN`'s en-passant field, from the tracker globals: the square in
algebraic notation when both coordinates are in `[0,8)`, else `"-"`. -/
def epChars (epr epc : Int) : List Char :=
  if 0 ≤ epr ∧ 0 ≤ epc ∧ epr < 8 ∧ epc < 8 then
    [Char.ofNat ('a'.toNat + epc.toNat), digitChar (8 - epr).toNat]
  else ['-']

/-- Model of `gui.ToFEN`: ranks top to bottom separated by `/`, then turn,
castling rights, en-passant target and the fixed `0 1` counters.  The
en-passant globals are passed explicitly. -/
def toFEN (b : ChessBoard) (turn : Color) (epr epc : Int) : List Char :=
  encRow (rowPieces b 0) ++ '/' :: encRow (rowPieces b 1) ++
  '/' :: encRow (rowPieces b 2) ++ '/' :: encRow (rowPieces b 3) ++
  '/' :: encRow (rowPieces b 4) ++ '/' :: encRow (rowPieces b 5) ++
  '/' :: encRow (rowPieces b 6) ++ '/' :: encRow (rowPieces b 7) ++
  ' ' :: turnChars turn ++ ' ' :: castleChars b ++
  ' ' :: epChars epr epc ++ [' ', '0', ' ', '1']

/-- Model of `strings.Split(fen, "/")`. -/
def splitSlash : List Char → List (List Char)
  | [] => [[]]
  | c :: rest =>
    if c = '/' then [] :: splitSlash rest
    else
      match splitSlash rest with
      | [] => [[c]]
      | r :: rs => (c :: r) :: rs

/-- ASCII `strings.ToLower` on one character, as used by the parser's
piece-letter switch. -/
def lowerChar (c : Char) : Char :=
  if 'A' ≤ c ∧ c ≤ 'Z' then Char.ofNat (c.toNat + 32) else c

/-- The parser's piece-letter switch; unrecognized characters give
`Empty`. -/
def typeOfChar (c : Char) : PieceType :=
  if lowerChar c = 'k' then PieceType.King
  else if lowerChar c = 'q' then PieceType.Queen
  else if lowerChar c = 'r' then PieceType.Rook
  else if lowerChar c = 'b' then PieceType.Bishop
  else if lowerChar c = 'n' then PieceType.Knight
  else if lowerChar c = 'p' then PieceType.Pawn
  else PieceType.Empty

/-- The parser's color rule: uppercase means White, anything else Black. -/
def charColor (c : Char) : Color :=
  if 'A' ≤ c ∧ c ≤ 'Z' then Color.White else Color.Black

/-- One rank of `NewChessBoardFromFEN`: `col` counts squares written so
far (writes are consecutive from column 0, so the written cells form the
accumulator `acc`).  A character seen with `col ≥ 8` breaks the loop; a
digit run that would write past column 7 is a Go index panic, modelled
as `none`. -/
def parseRowAux : List Char → Nat → List Piece → Option (List Piece)
  | [], _, acc => some acc
  | c :: rest, col, acc =>
    if 8 ≤ col then some acc
    else if '1' ≤ c ∧ c ≤ '8' then
      let d := c.toNat - '0'.toNat
      if 8 < col + d then none
      else parseRowAux rest (col + d) (acc ++ List.replicate d emptyPiece)
    else parseRowAux rest (col + 1) (acc ++ [⟨charColor c, typeOfChar c⟩])

/-- Model of `gui.NewChessBoardFromFEN`: split on `/`, parse at most 8 ranks,
leave everything not written at Go's zero value `{Black, King}`.
`none` models the index panic on an overlong digit run. -/
def fromFEN (s : List Char) : Option ChessBoard :=
  (((splitSlash s).take 8).mapM (fun r => parseRowAux r 0 [])).map
    (fun rows => fun i j => (rows.getD i.val []).getD j.val zeroPiece)

/-- Unfold an `Option ChessBoard` to `some` of a concrete board from a
presence witness plus pointwise agreement (the derived `Option` equality
test does not kernel-reduce over function values). -/
theorem option_board_eq {o : Option ChessBoard} {g : ChessBoard} (h : o.isSome = true)
    (hpt : ∀ i j, o.get h i j = g i j) : o = some g := by
  rw [← Option.some_get h]
  exact congrArg some (funext fun i => funext fun j => hpt i j)

/-- Sanity: serializing and re-parsing the standard starting board gives
back exactly `NewChessBoard`. -/
theorem fromFEN_toFEN_standard :
    fromFEN (toFEN newChessBoard Color.White (-1) (-1)) = some newChessBoard :=
  option_board_eq (by decide) (by decide)

/-! ## Round-trip of the placement encoding (C4) -/

/-- What a square becomes after serializing and re-parsing: empties come
back as `{Undefined, Empty}`, occupied squares come back unchanged
(when their color is defined). -/
def normPiece (p : Piece) : Piece :=
  if p.typ = PieceType.Empty then emptyPiece else p

/-- The FEN letter of a defined-color occupied piece is not a digit, is
not `/`, and decodes back to the same color and type. -/
theorem pieceChar_spec (p : Piece) (ht : p.typ ≠ PieceType.Empty)
    (hc : p.color ≠ Color.Undefined) :
    ¬('1' ≤ pieceChar p ∧ pieceChar p ≤ '8') ∧ charColor (pieceChar p) = p.color ∧
    typeOfChar (pieceChar p) = p.typ ∧ pieceChar p ≠ '/' := by
  obtain ⟨c, t⟩ := p
  cases c <;> cases t <;>
    first
      | exact absurd rfl hc
      | exact absurd rfl ht
      | exact ⟨by decide, by decide, by decide, by decide⟩

/-- The run-length digit for `1 ≤ n ≤ 8` is a digit in `'1'..'8'`, is
not `/`, and decodes back to `n`. -/
theorem digitChar_spec (n : Nat) (h1 : 1 ≤ n) (h8 : n ≤ 8) :
    ('1' ≤ digitChar n ∧ digitChar n ≤ '8') ∧
    (digitChar n).toNat - '0'.toNat = n ∧ digitChar n ≠ '/' := by
  interval_cases n <;> exact ⟨by decide, by decide, by decide⟩

/-- Once 8 columns are filled, the rank parser ignores the rest of the
rank string. -/
theorem parse_break (junk : List Char) (col : Nat) (acc : List Piece) (h : 8 ≤ col) :
    parseRowAux junk col acc = some acc := by
  cases junk with
  | nil => rfl
  | cons c rest =>
    simp only [parseRowAux]
    rw [if_pos h]

/-- One parser step on a digit character inside bounds. -/
theorem parse_step_digit (c : Char) (rest : List Char) (col : Nat) (acc : List Piece)
    (hc : col < 8) (hdig : '1' ≤ c ∧ c ≤ '8') (hno : ¬8 < col + (c.toNat - '0'.toNat)) :
    parseRowAux (c :: rest) col acc =
      parseRowAux rest (col + (c.toNat - '0'.toNat))
        (acc ++ List.replicate (c.toNat - '0'.toNat) emptyPiece) := by
  simp only [parseRowAux]
  rw [if_neg (by omega), if_pos hdig, if_neg hno]

/-- One parser step on a non-digit character inside bounds. -/
theorem parse_step_piece (c : Char) (rest : List Char) (col : Nat) (acc : List Piece)
    (hc : col < 8) (hdig : ¬('1' ≤ c ∧ c ≤ '8')) :
    parseRowAux (c :: rest) col acc =
      parseRowAux rest (col + 1) (acc ++ [⟨charColor c, typeOfChar c⟩]) := by
  simp only [parseRowAux]
  rw [if_neg (by omega), if_neg hdig]

/-- Parsing the run-length encoding of a rank suffix restores exactly
the pending empties followed by the normalized pieces, for any trailing
junk (consumed only by the column-8 break). -/
theorem parse_enc (r : List Piece) :
    ∀ (empty col : Nat) (acc : List Piece) (junk : List Char),
      col = acc.length →
      col + empty + r.length = 8 →
      (∀ p ∈ r, p.typ ≠ PieceType.Empty → p.color ≠ Color.Undefined) →
      parseRowAux (encRowAux r empty ++ junk) col acc =
        some (acc ++ List.replicate empty emptyPiece ++ r.map normPiece) := by
  induction r with
  | nil =>
    intro empty col acc junk hcol hlen _
    simp only [List.length_nil] at hlen
    by_cases h0 : 0 < empty
    · obtain ⟨hdig, hval, _⟩ := digitChar_spec empty h0 (by omega)
      simp only [encRowAux, if_pos h0, List.cons_append, List.nil_append]
      rw [parse_step_digit _ _ _ _ (by omega) hdig (by omega), hval,
        parse_break _ _ _ (by omega)]
      simp
    · simp only [encRowAux, if_neg h0, List.nil_append, List.map_nil, List.append_nil]
      rw [parse_break _ _ _ (by omega)]
      simp [show empty = 0 by omega]
  | cons p rest ih =>
    intro empty col acc junk hcol hlen hwc
    simp only [List.length_cons] at hlen
    by_cases ht : p.typ = PieceType.Empty
    · simp only [encRowAux, if_pos ht]
      rw [ih (empty + 1) col acc junk hcol (by omega)
        (fun q hq => hwc q (List.mem_cons_of_mem p hq))]
      simp [normPiece, if_pos ht, List.replicate_succ']
    · have hcu := hwc p (List.mem_cons_self p rest) ht
      obtain ⟨hnd, hcc, htc, _⟩ := pieceChar_spec p ht hcu
      by_cases h0 : 0 < empty
      · obtain ⟨hdig, hval, _⟩ := digitChar_spec empty h0 (by omega)
        simp only [encRowAux, if_neg ht, if_pos h0, List.cons_append, List.nil_append]
        rw [parse_step_digit _ _ _ _ (by omega) hdig (by omega), hval,
          parse_step_piece _ _ _ _ (by omega) hnd]
        have hpe : (⟨charColor (pieceChar p), typeOfChar (pieceChar p)⟩ : Piece) = p := by
          rw [hcc, htc]
        rw [hpe, ih 0 (col + empty + 1)
          (acc ++ List.replicate empty emptyPiece ++ [p]) junk
          (by simp [hcol]; try omega) (by omega)
          (fun q hq => hwc q (List.mem_cons_of_mem p hq))]
        simp [normPiece, if_neg ht]
      · simp only [encRowAux, if_neg ht, if_neg h0, List.nil_append, List.cons_append]
        rw [parse_step_piece _ _ _ _ (by omega) hnd]
        have hpe : (⟨charColor (pieceChar p), typeOfChar (pieceChar p)⟩ : Piece) = p := by
          rw [hcc, htc]
        rw [hpe, ih 0 (col + 1) (acc ++ [p]) junk (by simp [hcol]; try omega) (by omega)
          (fun q hq => hwc q (List.mem_cons_of_mem p hq))]
        simp [normPiece, if_neg ht, show empty = 0 by omega]

/-- A slash-free string is returned whole by the splitter. -/
theorem splitSlash_of_no_slash (l : List Char) (h : '/' ∉ l) : splitSlash l = [l] := by
  induction l with
  | nil => rfl
  | cons c rest ih =>
    have hc : ¬(c = '/') := fun e => h (by simp [e])
    simp only [splitSlash, if_neg hc, ih (fun m => h (List.mem_cons_of_mem c m))]

/-- Splitting strips one leading slash-free chunk. -/
theorem splitSlash_append (l rest : List Char) (h : '/' ∉ l) :
    splitSlash (l ++ '/' :: rest) = l :: splitSlash rest := by
  induction l with
  | nil => simp [splitSlash]
  | cons c t ih =>
    have hc : ¬(c = '/') := fun e => h (by simp [e])
    simp only [List.cons_append, splitSlash, if_neg hc]
    rw [show t.append ('/' :: rest) = t ++ '/' :: rest from rfl,
      ih (fun m => h (List.mem_cons_of_mem c m))]

/-- No piece letter is a slash (checked over all 21 piece values,
including Go's zero piece and undefined colors). -/
theorem pieceChar_ne_slash (p : Piece) : pieceChar p ≠ '/' := by
  obtain ⟨c, t⟩ := p
  cases c <;> cases t <;> decide

/-- A run-length encoded rank never contains a slash. -/
theorem encRowAux_no_slash (r : List Piece) :
    ∀ empty : Nat, empty + r.length ≤ 8 → '/' ∉ encRowAux r empty := by
  induction r with
  | nil =>
    intro empty hle hm
    simp only [List.length_nil] at hle
    by_cases h0 : 0 < empty
    · rw [encRowAux, if_pos h0] at hm
      obtain ⟨_, _, hd⟩ := digitChar_spec empty h0 hle
      simp at hm
      exact hd hm.symm
    · rw [encRowAux, if_neg h0] at hm
      simp at hm
  | cons p rest ih =>
    intro empty hle hm
    simp only [List.length_cons] at hle
    by_cases ht : p.typ = PieceType.Empty
    · rw [encRowAux, if_pos ht] at hm
      exact ih (empty + 1) (by omega) hm
    · rw [encRowAux, if_neg ht] at hm
      rcases List.mem_append.mp hm with hm1 | hm2
      · by_cases h0 : 0 < empty
        · rw [if_pos h0] at hm1
          obtain ⟨_, _, hd⟩ := digitChar_spec empty h0 (by omega)
          simp at hm1
          exact hd hm1.symm
        · rw [if_neg h0] at hm1
          simp at hm1
      · rcases List.mem_cons.mp hm2 with he | hm3
        · exact pieceChar_ne_slash p he.symm
        · exact ih 0 (by omega) hm3

/-- The turn field contains no slash. -/
theorem turnChars_no_slash (turn : Color) : '/' ∉ turnChars turn := by
  unfold turnChars
  split_ifs <;> decide

/-- The castling-rights field contains no slash. -/
theorem castleChars_no_slash (b : ChessBoard) : '/' ∉ castleChars b := by
  unfold castleChars
  split_ifs <;> decide

/-- The en-passant field contains no slash. -/
theorem epChars_no_slash (epr epc : Int) : '/' ∉ epChars epr epc := by
  unfold epChars
  split_ifs with hin
  · have hk : epc.toNat < 8 := by omega
    have hr1 : 1 ≤ (8 - epr).toNat := by omega
    have hr8 : (8 - epr).toNat ≤ 8 := by omega
    obtain ⟨_, _, hd⟩ := digitChar_spec (8 - epr).toNat hr1 hr8
    intro h
    rcases List.mem_cons.mp h with he | h
    · revert he
      generalize epc.toNat = k at hk
      interval_cases k <;> decide
    · rcases List.mem_cons.mp h with he | h
      · exact hd he.symm
      · simp at h
  · decide

/-- The trailing turn / castling / en-passant / counter fields contain
no slash. -/
theorem tailFields_no_slash (b : ChessBoard) (turn : Color) (epr epc : Int) :
    '/' ∉ (' ' :: turnChars turn ++ ' ' :: castleChars b ++
      ' ' :: epChars epr epc ++ [' ', '0', ' ', '1']) := by
  intro hm
  simp +decide only [List.mem_cons, List.mem_append,
    turnChars_no_slash turn, castleChars_no_slash b, epChars_no_slash epr epc] at hm

/-- One rank of the board parses back (through the full split pipeline)
to its normalized pieces. -/
theorem parse_encRow (b : ChessBoard) (i : Fin 8) (junk : List Char)
    (hwc : ∀ i j : Fin 8, (b i j).typ ≠ PieceType.Empty → (b i j).color ≠ Color.Undefined) :
    parseRowAux (encRow (rowPieces b i) ++ junk) 0 [] =
      some ((rowPieces b i).map normPiece) := by
  have h := parse_enc (rowPieces b i) 0 0 [] junk rfl
    (by simp [rowPieces])
    (by
      intro p hp hne
      rw [rowPieces, List.mem_ofFn] at hp
      obtain ⟨j, hj⟩ := hp
      rw [← hj] at hne ⊢
      exact hwc i j hne)
  simpa [encRow] using h

/-- Splitting the serialized board yields exactly the eight rank
encodings, the last carrying the trailing fields. -/
theorem splitSlash_toFEN (b : ChessBoard) (turn : Color) (epr epc : Int) :
    splitSlash (toFEN b turn epr epc) =
      [encRow (rowPieces b 0), encRow (rowPieces b 1), encRow (rowPieces b 2),
       encRow (rowPieces b 3), encRow (rowPieces b 4), encRow (rowPieces b 5),
       encRow (rowPieces b 6),
       encRow (rowPieces b 7) ++ ' ' :: (turnChars turn ++ ' ' :: (castleChars b ++
         ' ' :: (epChars epr epc ++ [' ', '0', ' ', '1'])))] := by
  have hn : ∀ i : Fin 8, '/' ∉ encRow (rowPieces b i) := fun i =>
    encRowAux_no_slash (rowPieces b i) 0 (by simp [rowPieces])
  have h7 : '/' ∉ encRow (rowPieces b 7) ++ ' ' :: (turnChars turn ++
      ' ' :: (castleChars b ++ ' ' :: (epChars epr epc ++ [' ', '0', ' ', '1']))) := by
    intro hm
    simp +decide only [List.mem_append, List.mem_cons, turnChars_no_slash turn,
      castleChars_no_slash b, epChars_no_slash epr epc, hn 7] at hm
  unfold toFEN
  simp only [List.append_assoc, List.cons_append]
  rw [splitSlash_append _ _ (hn 0), splitSlash_append _ _ (hn 1),
    splitSlash_append _ _ (hn 2), splitSlash_append _ _ (hn 3),
    splitSlash_append _ _ (hn 4), splitSlash_append _ _ (hn 5),
    splitSlash_append _ _ (hn 6), splitSlash_of_no_slash _ h7]

/-- Indexing into a normalized serialization of a rank recovers the
normalized piece. -/
theorem getD_map_ofFn (f : Fin 8 → Piece) (j : Fin 8) :
    ((List.ofFn f).map normPiece).getD j.val zeroPiece = normPiece (f j) := by
  have hj : j.val < ((List.ofFn f).map normPiece).length := by
    simp [j.isLt]
  rw [List.getD_eq_getElem _ _ hj]
  simp only [List.getElem_map, List.getElem_ofFn, Fin.eta]

/-- Normalization preserves the type of a square. -/
theorem normPiece_typ (p : Piece) : (normPiece p).typ = p.typ := by
  unfold normPiece
  split_ifs with h
  · rw [h]
    rfl
  · rfl

/-- Normalization preserves occupied squares entirely. -/
theorem normPiece_of_occupied (p : Piece) (h : p.typ ≠ PieceType.Empty) :
    normPiece p = p := by
  unfold normPiece
  rw [if_neg h]

/-- C4: for every board whose occupied squares carry a defined color
(the data model's invariant) and every turn, parsing the serialized
placement reproduces the placement: the re-parsed board agrees with the
original on every square's piece type and on every occupied square's
color. -/
theorem fen_round_trip (b : ChessBoard) (turn : Color) (epr epc : Int)
    (hwc : ∀ i j : Fin 8, (b i j).typ ≠ PieceType.Empty → (b i j).color ≠ Color.Undefined) :
    ∃ b', fromFEN (toFEN b turn epr epc) = some b' ∧
      (∀ i j : Fin 8, (b' i j).typ = (b i j).typ) ∧
      (∀ i j : Fin 8, (b i j).typ ≠ PieceType.Empty → (b' i j).color = (b i j).color) := by
  have hparse : ∀ i : Fin 8,
      parseRowAux (encRow (rowPieces b i)) 0 [] = some ((rowPieces b i).map normPiece) := by
    intro i
    have h := parse_encRow b i [] hwc
    simpa using h
  have hparse7 :
      parseRowAux (encRow (rowPieces b 7) ++ ' ' :: (turnChars turn ++
        ' ' :: (castleChars b ++ ' ' :: (epChars epr epc ++ [' ', '0', ' ', '1'])))) 0 [] =
      some ((rowPieces b 7).map normPiece) := by
    have h := parse_encRow b 7
      (' ' :: (turnChars turn ++ ' ' :: (castleChars b ++
        ' ' :: (epChars epr epc ++ [' ', '0', ' ', '1'])))) hwc
    simpa using h
  refine ⟨fun i j => normPiece (b i j), ?_, fun i j => normPiece_typ (b i j),
    fun i j h => by
      show (normPiece (b i j)).color = (b i j).color
      rw [normPiece_of_occupied (b i j) h]⟩
  unfold fromFEN
  rw [splitSlash_toFEN b turn epr epc]
  rw [List.take_of_length_le (by simp)]
  rw [List.mapM_cons, List.mapM_cons, List.mapM_cons, List.mapM_cons, List.mapM_cons,
    List.mapM_cons, List.mapM_cons, List.mapM_cons, List.mapM_nil]
  simp only [hparse 0, hparse 1, hparse 2, hparse 3, hparse 4, hparse 5, hparse 6, hparse7,
    Option.bind_eq_bind, Option.some_bind, Option.pure_def, Option.map_some]
  refine congrArg some (funext fun i => funext fun j => ?_)
  fin_cases i <;> exact getD_map_ofFn _ j

/-- Witness for C4 at the standard starting board: the round trip holds
there (and in fact reproduces `NewChessBoard` exactly). -/
theorem fen_round_trip_witness :
    ∃ b', fromFEN (toFEN newChessBoard Color.White (-1) (-1)) = some b' ∧
      (∀ i j : Fin 8, (b' i j).typ = (newChessBoard i j).typ) ∧
      (∀ i j : Fin 8, (newChessBoard i j).typ ≠ PieceType.Empty →
        (b' i j).color = (newChessBoard i j).color) :=
  fen_round_trip newChessBoard Color.White (-1) (-1) (by decide)

/-- The board `NewChessBoardFromFEN("x")` actually produces: the
unrecognized character `x` yields a square of type `Empty` but color
`Black` (lowercase), and every square the parse never writes keeps Go's
zero value `{Black, King}`. -/
def boardOfX : ChessBoard := fun i j =>
  if i.val = 0 ∧ j.val = 0 then ⟨Color.Black, PieceType.Empty⟩ else zeroPiece

/-- C6 counterexample: `NewChessBoardFromFEN "x"` leaves square (0,0)
with `Type = Empty` but `Color = Black ≠ Undefined`, so a
constructor-produced board violates `Color = Undefined ⟺ Type = Empty`. -/
theorem fromFEN_x_breaks_invariant :
    fromFEN ['x'] = some boardOfX ∧
    (boardOfX 0 0).typ = PieceType.Empty ∧
    (boardOfX 0 0).color = Color.Black ∧
    (boardOfX 0 0).color ≠ Color.Undefined :=
  ⟨option_board_eq (by decide) (by decide), by decide, by decide, by decide⟩

/-- C6 amended: `NewChessBoard` satisfies `Color = Undefined ⟺
Type = Empty` on every square, and `NewChessBoardFromFEN` does leave the
square of an unrecognized (non-digit) character with `Type = Empty`
rather than failing — but it assigns it `Color = White` for an uppercase
character and `Color = Black` otherwise, not `Undefined`, so the
invariant does not extend to parsed boards. -/
theorem newBoard_invariant_and_tolerant_parse :
    (∀ i j : Fin 8, (newChessBoard i j).color = Color.Undefined ↔
      (newChessBoard i j).typ = PieceType.Empty) ∧
    (∀ (c : Char) (col : Nat) (acc : List Piece),
      typeOfChar c = PieceType.Empty → ¬('1' ≤ c ∧ c ≤ '8') → col < 8 →
      parseRowAux [c] col acc = some (acc ++ [⟨charColor c, PieceType.Empty⟩])) := by
  refine ⟨by decide, ?_⟩
  intro c col acc htyp hdig hcol
  unfold parseRowAux
  rw [if_neg (by omega), if_neg hdig, htyp]
  rfl

/-- Witness for C6's amended statement at the concrete unrecognized
characters `x` (lowercase → Black) and `X` (uppercase → White). -/
theorem newBoard_invariant_and_tolerant_parse_witness :
    ((newChessBoard 3 3).color = Color.Undefined ↔
      (newChessBoard 3 3).typ = PieceType.Empty) ∧
    parseRowAux ['x'] 0 [] = some [⟨Color.Black, PieceType.Empty⟩] ∧
    parseRowAux ['X'] 0 [] = some [⟨Color.White, PieceType.Empty⟩] := by
  refine ⟨newBoard_invariant_and_tolerant_parse.1 3 3, ?_, ?_⟩
  · have h := newBoard_invariant_and_tolerant_parse.2 'x' 0 []
      (by decide) (by decide) (by decide)
    simpa using h
  · have h := newBoard_invariant_and_tolerant_parse.2 'X' 0 []
      (by decide) (by decide) (by decide)
    simpa using h

/-- C9: `ToFEN`'s castling-rights field contains `K`/`Q`/`k`/`q` exactly
when the corresponding king and rook currently occupy their home
squares, and is `-` exactly when no such pair does — with no dependence
on move history. -/
theorem castleChars_spec (b : ChessBoard) :
    ('K' ∈ castleChars b ↔
      ((b 7 4).typ = PieceType.King ∧ (b 7 4).color = Color.White ∧
       (b 7 7).typ = PieceType.Rook ∧ (b 7 7).color = Color.White)) ∧
    ('Q' ∈ castleChars b ↔
      ((b 7 4).typ = PieceType.King ∧ (b 7 4).color = Color.White ∧
       (b 7 0).typ = PieceType.Rook ∧ (b 7 0).color = Color.White)) ∧
    ('k' ∈ castleChars b ↔
      ((b 0 4).typ = PieceType.King ∧ (b 0 4).color = Color.Black ∧
       (b 0 7).typ = PieceType.Rook ∧ (b 0 7).color = Color.Black)) ∧
    ('q' ∈ castleChars b ↔
      ((b 0 4).typ = PieceType.King ∧ (b 0 4).color = Color.Black ∧
       (b 0 0).typ = PieceType.Rook ∧ (b 0 0).color = Color.Black)) ∧
    (castleChars b = ['-'] ↔
      ¬((b 7 4).typ = PieceType.King ∧ (b 7 4).color = Color.White ∧
        (b 7 7).typ = PieceType.Rook ∧ (b 7 7).color = Color.White) ∧
      ¬((b 7 4).typ = PieceType.King ∧ (b 7 4).color = Color.White ∧
        (b 7 0).typ = PieceType.Rook ∧ (b 7 0).color = Color.White) ∧
      ¬((b 0 4).typ = PieceType.King ∧ (b 0 4).color = Color.Black ∧
        (b 0 7).typ = PieceType.Rook ∧ (b 0 7).color = Color.Black) ∧
      ¬((b 0 4).typ = PieceType.King ∧ (b 0 4).color = Color.Black ∧
        (b 0 0).typ = PieceType.Rook ∧ (b 0 0).color = Color.Black)) := by
  unfold castleChars
  split_ifs <;> simp_all

/-- Witness for C9: on the standard starting board every right is
present, and on the empty board the field is `"-"`. -/
theorem castleChars_spec_witness :
    'K' ∈ castleChars newChessBoard ∧
    castleChars (fun _ _ => emptyPiece) = ['-'] :=
  ⟨(castleChars_spec newChessBoard).1.mpr (by decide),
   (castleChars_spec (fun _ _ => emptyPiece)).2.2.2.2.mpr (by decide)⟩

/-! ## The check detector (`history.IsInCheck`)

`IsInCheck` reads the oracle's position: squares numbered `A1 = 0` …
`H8 = 63` (rank-major from White's side; the repo's own board sync uses
`Square((7-i)*8+j)`), a piece lookup per square, and the side to move. -/

/-- Piece colors as the oracle reports them. -/
inductive OColor where
  | white
  | black
  deriving DecidableEq, Repr

/-- Model of `chess.Color.Other`. -/
def OColor.other : OColor → OColor
  | OColor.white => OColor.black
  | OColor.black => OColor.white

/-- Piece kinds as the oracle reports them. -/
inductive OPieceType where
  | king
  | queen
  | rook
  | bishop
  | knight
  | pawn
  deriving DecidableEq, Repr

/-- An oracle position as `IsInCheck` consumes it. -/
structure OPos where
  pieceAt : Int → Option (OColor × OPieceType)
  turn : OColor

/-- Model of `history.sign`. -/
def sign (x : Int) : Int :=
  if x < 0 then -1 else if 0 < x then 1 else 0

/-- Model of `history.isKingAdjacent`. -/
def isKingAdjacent (fromSq toSq : Int) : Bool :=
  decide (((fromSq % 8 - toSq % 8).natAbs ≤ 1 ∧ (fromSq / 8 - toSq / 8).natAbs ≤ 1) ∧
    fromSq ≠ toSq)

/-- Model of `history.isValidKnightMove`. -/
def isValidKnightMove (fromSq toSq : Int) : Bool :=
  decide (((fromSq % 8 - toSq % 8).natAbs = 1 ∧ (fromSq / 8 - toSq / 8).natAbs = 2) ∨
    ((fromSq % 8 - toSq % 8).natAbs = 2 ∧ (fromSq / 8 - toSq / 8).natAbs = 1))

/-- The stepping loop of `history.canPieceReach`.  The Go loop leaves the
board or hits the target/a blocker within 8 steps (its steps are never
both zero off the target), so fuel 8 is exact. -/
def walkPath (pos : OPos) (target stepF stepR : Int) : Int → Int → Nat → Bool
  | _, _, 0 => false
  | f, r, fuel + 1 =>
    let f' := f + stepF
    let r' := r + stepR
    if f' < 0 ∨ f' > 7 ∨ r' < 0 ∨ r' > 7 then false
    else if r' * 8 + f' = target then true
    else if pos.pieceAt (r' * 8 + f') ≠ none then false
    else walkPath pos target stepF stepR f' r' fuel

/-- Model of `history.canPieceReach`: sliding-piece reachability with blocker
detection. -/
def canPieceReach (pos : OPos) (fromSq toSq : Int) (t : OPieceType) : Bool :=
  let df := toSq % 8 - fromSq % 8
  let dr := toSq / 8 - fromSq / 8
  match t with
  | OPieceType.bishop =>
    if df.natAbs ≠ dr.natAbs ∨ df = 0 then false
    else walkPath pos toSq (sign df) (sign dr) (fromSq % 8) (fromSq / 8) 8
  | OPieceType.rook =>
    if df ≠ 0 ∧ dr ≠ 0 then false
    else walkPath pos toSq (sign df) (sign dr) (fromSq % 8) (fromSq / 8) 8
  | OPieceType.queen =>
    if (df.natAbs = dr.natAbs ∧ df ≠ 0) ∨ (df = 0 ∧ dr ≠ 0) ∨ (df ≠ 0 ∧ dr = 0) then
      walkPath pos toSq (sign df) (sign dr) (fromSq % 8) (fromSq / 8) 8
    else false
  | _ => false

/-- Model of `history.IsInCheck`: find the mover's king (first square, else
report no check), then scan every opposing piece for an attack on it.
The pawn case is transcribed exactly as written: `dir = -1` when the
opponent is White, `dir = 1` when Black, testing `sq + dir*8 ± 1`. -/
def isInCheck (pos : OPos) : Bool :=
  match (List.range 64).find?
      (fun n => decide (pos.pieceAt (n : Int) = some (pos.turn, OPieceType.king))) with
  | none => false
  | some k =>
    let kingSq : Int := k
    let opp := pos.turn.other
    (List.range 64).any fun n =>
      match pos.pieceAt (n : Int) with
      | none => false
      | some (c, t) =>
        if c ≠ opp then false
        else
          match t with
          | OPieceType.pawn =>
            let dir : Int := if opp = OColor.white then -1 else 1
            [(-1 : Int), 1].any fun off =>
              let att := (n : Int) + dir * 8 + off
              decide (0 ≤ att ∧ att ≤ 63 ∧ att = kingSq ∧
                ((n : Int) % 8 - kingSq % 8).natAbs = 1)
          | OPieceType.knight =>
            [(15 : Int), 17, 6, 10, -15, -17, -6, -10].any fun off =>
              let att := (n : Int) + off
              decide (0 ≤ att ∧ att ≤ 63 ∧ att = kingSq) && isValidKnightMove (n : Int) att
          | OPieceType.bishop => canPieceReach pos (n : Int) kingSq OPieceType.bishop
          | OPieceType.rook => canPieceReach pos (n : Int) kingSq OPieceType.rook
          | OPieceType.queen => canPieceReach pos (n : Int) kingSq OPieceType.queen
          | OPieceType.king => isKingAdjacent (n : Int) kingSq

/-- Modelled from the spec: "pawns test diagonal-forward adjacency with
file-distance exactly 1 respecting direction-by-color" — forward means
toward higher ranks for a White pawn (`+8`) and lower ranks for a Black
pawn (`-8`), so a pawn check means an opposing pawn one rank behind the
king in its own forward direction, file-distance 1.  Same king-location
rule as the code. -/
def specPawnChecks (pos : OPos) : Bool :=
  match (List.range 64).find?
      (fun n => decide (pos.pieceAt (n : Int) = some (pos.turn, OPieceType.king))) with
  | none => false
  | some k =>
    let kingSq : Int := k
    let opp := pos.turn.other
    (List.range 64).any fun n =>
      decide (pos.pieceAt (n : Int) = some (opp, OPieceType.pawn)) &&
      (let fwd : Int := if opp = OColor.white then 1 else -1
       decide (((n : Int) + fwd * 8 - 1 = kingSq ∨ (n : Int) + fwd * 8 + 1 = kingSq) ∧
         ((n : Int) % 8 - kingSq % 8).natAbs = 1))

/-- White king on e4 (square 28), Black pawn on d5 (square 35), White to
move: a real pawn check. -/
def posKingE4PawnD5 : OPos :=
  { pieceAt := fun n =>
      if n = 28 then some (OColor.white, OPieceType.king)
      else if n = 35 then some (OColor.black, OPieceType.pawn)
      else none,
    turn := OColor.white }

/-- White king on e4 (square 28), Black pawn on d3 (square 19), White to
move: no check (the pawn is behind the king). -/
def posKingE4PawnD3 : OPos :=
  { pieceAt := fun n =>
      if n = 28 then some (OColor.white, OPieceType.king)
      else if n = 19 then some (OColor.black, OPieceType.pawn)
      else none,
    turn := OColor.white }

/-- C5: the pawn case of `IsInCheck` has its direction inverted.  A
Black pawn on d5 attacking the White king on e4 is not reported, while a
Black pawn on d3 — behind the king, attacking nothing — is reported; the
spec's diagonal-forward rule says exactly the opposite on both boards. -/
theorem isInCheck_pawn_direction_bug :
    isInCheck posKingE4PawnD5 = false ∧ specPawnChecks posKingE4PawnD5 = true ∧
    isInCheck posKingE4PawnD3 = true ∧ specPawnChecks posKingE4PawnD3 = false := by
  refine ⟨?_, ?_, ?_, ?_⟩ <;> decide

/-! ## The move applier (`gui.MovePiece`) over an abstract legality oracle -/

/-- The external legality oracle (spec §6), abstracted to exactly the
calls the Go code makes: build a game from a FEN string (`chess.FEN` +
`chess.NewGame`; `none` on a FEN error), decode a square-pair token
against the current position into a validated move (`none` when the
oracle rejects it), apply a move (`none` when rejected, else the
advanced game), print a move token, export the placement
(`updateBoardFromGame`'s square-by-square sync), and — for the history
renderer — a fresh game, SAN encoding, a checkmate query
(`Outcome() != NoOutcome && Method() == Checkmate`) and the position
view consumed by `IsInCheck`. -/
structure Oracle where
  Game : Type
  OMove : Type
  mkGame : List Char → Option Game
  decode : Game → String → Option OMove
  doMove : Game → OMove → Option Game
  moveString : OMove → String
  boardOf : Game → ChessBoard
  newGame : Game
  encodeSAN : Game → OMove → String
  checkmate : Game → Bool
  posOf : Game → OPos

/-- The state `MovePiece` mutates: the board (through its receiver
pointer), the `history` package's move slice, and the two en-passant
globals. -/
structure MoveState where
  board : ChessBoard
  hist : List String
  epRow : Int
  epCol : Int
  deriving DecidableEq

/-- The en-passant globals at process start. -/
def initialEnPassant : Int × Int := (-1, -1)

/-- One square in `%c%d` form: file `'a'+col`, rank `8-row`. -/
def sqChars (colI rowI : Int) : List Char :=
  [Char.ofNat ('a'.toNat + colI.toNat), Char.ofNat ('0'.toNat + (8 - rowI).toNat)]

/-- The square-pair token `fmt.Sprintf("%c%d%c%d", 'a'+fromCol,
8-fromRow, 'a'+toCol, 8-toRow)`. -/
def moveToken (fromRow fromCol toRow toCol : Int) : String :=
  String.mk (sqChars fromCol fromRow ++ sqChars toCol toRow)

/-- The candidate token `MovePiece` submits: the square pair, suffixed
`q` (default-queen promotion) when the source piece is a pawn headed to
row 0 or 7. -/
def rawToken (b : ChessBoard) (fromRow fromCol toRow toCol : Int) : String :=
  if (cell b fromRow fromCol).typ = PieceType.Pawn ∧ (toRow = 0 ∨ toRow = 7) then
    moveToken fromRow fromCol toRow toCol ++ "q"
  else moveToken fromRow fromCol toRow toCol

/-- Model of `gui.setEnPassantSquare`: a pawn moving exactly two rows in a fixed
column sets the target behind its destination (White: `toRow+1`; Black:
`toRow-1`; an undefined color leaves the globals untouched); every other
move clears the target. -/
def setEnPassantSquare (piece : Piece) (fromRow fromCol toRow toCol : Int)
    (epRow epCol : Int) : Int × Int :=
  if piece.typ = PieceType.Pawn ∧ (fromRow - toRow).natAbs = 2 ∧ fromCol = toCol then
    if piece.color = Color.White then (toRow + 1, toCol)
    else if piece.color = Color.Black then (toRow - 1, toCol)
    else (epRow, epCol)
  else (-1, -1)

/-- Outcome of a `MovePiece` call: `ok returned state'`, or `panic st`
when the code dereferences the nil move of a failed decode (or writes
off the board) — `st` being the state already mutated at the panic
point. -/
inductive MoveResult where
  | ok : Bool → MoveState → MoveResult
  | panic : MoveState → MoveResult
  deriving DecidableEq

/-- Model of `gui.MovePiece` over oracle `O`, transcribed branch by branch:
bounds check; FEN export (reading the en-passant globals); oracle game
construction; source piece read; square-pair token with default-queen
promotion suffix for a pawn reaching row 0/7; the normal decode/apply
path (sync board, append `move.String()`, recompute en passant); on
decode failure the castling fallback (king moving two columns in its
row: decode the fixed `turn`-colored castle token for destination
column 6 or 2, apply, sync, log, recompute); then the en-passant
fallback (pawn moving diagonally to an empty square): on a target match
the Go code syncs the board from the *not advanced* game, clears the
square behind the destination, and then calls `move.String()` on the
failed decode's nil move — modelled as `panic`; on a mismatch it decodes
the same token again (failing again) and returns false. -/
def movePiece (O : Oracle) (s : MoveState) (fromRow fromCol toRow toCol : Int)
    (turn : Color) : MoveResult :=
  if fromRow < 0 ∨ fromRow > 7 ∨ fromCol < 0 ∨ fromCol > 7 ∨
      toRow < 0 ∨ toRow > 7 ∨ toCol < 0 ∨ toCol > 7 then
    MoveResult.ok false s
  else
    match O.mkGame (toFEN s.board turn s.epRow s.epCol) with
    | none => MoveResult.ok false s
    | some game =>
      match O.decode game (rawToken s.board fromRow fromCol toRow toCol) with
      | some move =>
        match O.doMove game move with
        | none => MoveResult.ok false s
        | some game' =>
          MoveResult.ok true
            ⟨O.boardOf game', s.hist ++ [O.moveString move],
             (setEnPassantSquare (cell s.board fromRow fromCol)
               fromRow fromCol toRow toCol s.epRow s.epCol).1,
             (setEnPassantSquare (cell s.board fromRow fromCol)
               fromRow fromCol toRow toCol s.epRow s.epCol).2⟩
      | none =>
        match (if (cell s.board fromRow fromCol).typ = PieceType.King ∧ fromRow = toRow ∧
              (fromCol - toCol).natAbs = 2 then
            if toCol = 6 then
              if turn = Color.Black then O.decode game "e8g8" else O.decode game "e1g1"
            else if toCol = 2 then
              if turn = Color.Black then O.decode game "e8c8" else O.decode game "e1c1"
            else none
          else none).bind (fun cm => (O.doMove game cm).map (fun g => (cm, g))) with
        | some (cm, game') =>
          MoveResult.ok true
            ⟨O.boardOf game', s.hist ++ [O.moveString cm],
             (setEnPassantSquare (cell s.board fromRow fromCol)
               fromRow fromCol toRow toCol s.epRow s.epCol).1,
             (setEnPassantSquare (cell s.board fromRow fromCol)
               fromRow fromCol toRow toCol s.epRow s.epCol).2⟩
        | none =>
          if (cell s.board fromRow fromCol).typ = PieceType.Pawn ∧ fromRow ≠ toRow ∧
              fromCol ≠ toCol ∧ (cell s.board toRow toCol).typ = PieceType.Empty then
            if toRow = s.epRow ∧ toCol = s.epCol then
              match setCell (O.boardOf game)
                  (if (cell s.board fromRow fromCol).color = Color.White then toRow + 1
                   else toRow - 1) toCol emptyPiece with
              | none => MoveResult.panic ⟨O.boardOf game, s.hist, s.epRow, s.epCol⟩
              | some b2 => MoveResult.panic ⟨b2, s.hist, s.epRow, s.epCol⟩
            else
              match O.decode game (rawToken s.board fromRow fromCol toRow toCol) with
              | some m2 =>
                match O.doMove game m2 with
                | some game' =>
                  MoveResult.ok true
                    ⟨O.boardOf game', s.hist ++ [O.moveString m2],
                     (setEnPassantSquare (cell s.board fromRow fromCol)
                       fromRow fromCol toRow toCol s.epRow s.epCol).1,
                     (setEnPassantSquare (cell s.board fromRow fromCol)
                       fromRow fromCol toRow toCol s.epRow s.epCol).2⟩
                | none => MoveResult.ok false s
              | none => MoveResult.ok false s
          else MoveResult.ok false s

/-! ## Concrete boards and oracles used for evaluation -/

/-- The standard board after White's double push e2–e4. -/
def boardAfterE4 : ChessBoard := fun i j =>
  if i = 6 ∧ j = 4 then emptyPiece
  else if i = 4 ∧ j = 4 then ⟨Color.White, PieceType.Pawn⟩
  else newChessBoard i j

/-- Board `boardAfterE4` with the e4 pawn deleted — the mutation the
en-passant fallback performs before it panics. -/
def mutatedAfterE4 : ChessBoard := fun i j =>
  if i = 4 ∧ j = 4 then emptyPiece else boardAfterE4 i j

/-- An empty position view, for oracle fields the claims never query. -/
def trivPos : OPos := ⟨fun _ => none, OColor.white⟩

/-- A legality oracle that accepts every FEN and rejects every move
token (the behavior a §6 oracle shows on the illegal tokens these
scenarios submit), reporting placement `b`. -/
def rejectOracle (b : ChessBoard) : Oracle where
  Game := Unit
  OMove := Unit
  mkGame := fun _ => some ()
  decode := fun _ _ => none
  doMove := fun _ _ => none
  moveString := fun _ => ""
  boardOf := fun _ => b
  newGame := ()
  encodeSAN := fun _ _ => ""
  checkmate := fun _ => false
  posOf := fun _ => trivPos

/-- A legality oracle that accepts the one submitted token, whose
application yields placement `bafter`; the move prints as `tok`. -/
def acceptOracle (bafter : ChessBoard) (tok : String) : Oracle where
  Game := Unit
  OMove := Unit
  mkGame := fun _ => some ()
  decode := fun _ _ => some ()
  doMove := fun _ _ => some ()
  moveString := fun _ => tok
  boardOf := fun _ => bafter
  newGame := ()
  encodeSAN := fun _ _ => ""
  checkmate := fun _ => false
  posOf := fun _ => trivPos

/-- C1 (code bug, en-passant fallback): with the en-passant target at
(5,4) (after 1.e4) and Black submitting the illegal pawn token d7–e3 —
a pawn "capture" onto the empty target square — the oracle rejects the
decode, the en-passant branch fires, the board is synced and the square
behind the target (e4, holding White's pawn!) is emptied, and then
`move.String()` is called on the failed decode's nil move: a panic after
a partial mutation, with nothing appended to the history and the target
not recomputed.  This refutes the all-or-nothing contract. -/
theorem movePiece_ep_fallback_panics :
    movePiece (rejectOracle boardAfterE4) ⟨boardAfterE4, ["e2e4"], 5, 4⟩ 1 3 5 4 Color.Black =
      MoveResult.panic ⟨mutatedAfterE4, ["e2e4"], 5, 4⟩ ∧
    mutatedAfterE4 ≠ boardAfterE4 ∧
    boardAfterE4 4 4 = ⟨Color.White, PieceType.Pawn⟩ ∧
    mutatedAfterE4 4 4 = emptyPiece := by
  refine ⟨rfl, by decide, by decide, by decide⟩

/-- When the oracle rejects the submitted token and neither fallback
shape applies (no king moving two columns in its row, and no
pawn-diagonal onto the empty matching en-passant target), `MovePiece`
returns false and leaves the state untouched. -/
theorem movePiece_decode_fail (O : Oracle) (s : MoveState) (fr fc tr tc : Int)
    (turn : Color) (game : O.Game)
    (hnb : ¬(fr < 0 ∨ fr > 7 ∨ fc < 0 ∨ fc > 7 ∨ tr < 0 ∨ tr > 7 ∨ tc < 0 ∨ tc > 7))
    (hmk : O.mkGame (toFEN s.board turn s.epRow s.epCol) = some game)
    (hdec : O.decode game (rawToken s.board fr fc tr tc) = none)
    (hnc : ¬((cell s.board fr fc).typ = PieceType.King ∧ fr = tr ∧ (fc - tc).natAbs = 2))
    (hne : ¬((cell s.board fr fc).typ = PieceType.Pawn ∧ fr ≠ tr ∧ fc ≠ tc ∧
      (cell s.board tr tc).typ = PieceType.Empty ∧ tr = s.epRow ∧ tc = s.epCol)) :
    movePiece O s fr fc tr tc turn = MoveResult.ok false s := by
  unfold movePiece
  rw [if_neg hnb]
  simp only [hmk, hdec, if_neg hnc, Option.none_bind]
  by_cases hp : (cell s.board fr fc).typ = PieceType.Pawn ∧ fr ≠ tr ∧ fc ≠ tc ∧
      (cell s.board tr tc).typ = PieceType.Empty
  · rw [if_pos hp,
      if_neg (fun hm => hne ⟨hp.1, hp.2.1, hp.2.2.1, hp.2.2.2, hm.1, hm.2⟩)]
  · rw [if_neg hp]

/-- C2 (amended): `MovePiece` returns false with no mutation when a
coordinate leaves `[0,7]`, when the oracle cannot build the position, or
when the oracle rejects the submitted token and the request is
`from = to`, or from an `Empty` square, or of neither fallback shape
(the wrong-color rejection is *not* unconditional: a wrong-color king
moving two columns, or a wrong-color pawn diagonal onto the matching
en-passant target, reaches the fallbacks — see the counterexample). -/
theorem movePiece_rejects (O : Oracle) (s : MoveState) (fr fc tr tc : Int) (turn : Color) :
    ((fr < 0 ∨ fr > 7 ∨ fc < 0 ∨ fc > 7 ∨ tr < 0 ∨ tr > 7 ∨ tc < 0 ∨ tc > 7) →
      movePiece O s fr fc tr tc turn = MoveResult.ok false s) ∧
    (¬(fr < 0 ∨ fr > 7 ∨ fc < 0 ∨ fc > 7 ∨ tr < 0 ∨ tr > 7 ∨ tc < 0 ∨ tc > 7) →
      O.mkGame (toFEN s.board turn s.epRow s.epCol) = none →
      movePiece O s fr fc tr tc turn = MoveResult.ok false s) ∧
    (∀ game : O.Game,
      ¬(fr < 0 ∨ fr > 7 ∨ fc < 0 ∨ fc > 7 ∨ tr < 0 ∨ tr > 7 ∨ tc < 0 ∨ tc > 7) →
      O.mkGame (toFEN s.board turn s.epRow s.epCol) = some game →
      O.decode game (rawToken s.board fr fc tr tc) = none →
      ((fr = tr ∧ fc = tc) ∨ (cell s.board fr fc).typ = PieceType.Empty ∨
        (¬((cell s.board fr fc).typ = PieceType.King ∧ fr = tr ∧ (fc - tc).natAbs = 2) ∧
         ¬((cell s.board fr fc).typ = PieceType.Pawn ∧ fr ≠ tr ∧ fc ≠ tc ∧
           (cell s.board tr tc).typ = PieceType.Empty ∧ tr = s.epRow ∧ tc = s.epCol))) →
      movePiece O s fr fc tr tc turn = MoveResult.ok false s) := by
  refine ⟨?_, ?_, ?_⟩
  · intro h
    unfold movePiece
    rw [if_pos h]
  · intro hnb hmk
    unfold movePiece
    rw [if_neg hnb]
    simp only [hmk]
  · intro game hnb hmk hdec hcase
    rcases hcase with ⟨he1, he2⟩ | he | ⟨hnc, hne⟩
    · exact movePiece_decode_fail O s fr fc tr tc turn game hnb hmk hdec
        (fun hm => by omega)
        (fun hm => hm.2.1 he1)
    · exact movePiece_decode_fail O s fr fc tr tc turn game hnb hmk hdec
        (fun hm => by rw [he] at hm; exact absurd hm.1 (by decide))
        (fun hm => by rw [he] at hm; exact absurd hm.1 (by decide))
    · exact movePiece_decode_fail O s fr fc tr tc turn game hnb hmk hdec hnc hne

/-- Standard board with f1 and g1 cleared: White may castle kingside. -/
def preCastleBoard : ChessBoard := fun i j =>
  if i = 7 ∧ (j = 5 ∨ j = 6) then emptyPiece else newChessBoard i j

/-- Board `preCastleBoard` after White's kingside castle (the placement the
oracle reports back). -/
def castledBoard : ChessBoard := fun i j =>
  if i = 7 ∧ j = 4 then emptyPiece
  else if i = 7 ∧ j = 5 then ⟨Color.White, PieceType.Rook⟩
  else if i = 7 ∧ j = 6 then ⟨Color.White, PieceType.King⟩
  else if i = 7 ∧ j = 7 then emptyPiece
  else preCastleBoard i j

/-- A legality oracle for the castling scenario: it rejects every token
except White's kingside castle `e1g1` (the submitted `e8g8` is illegal
with White to move), whose application yields `castledBoard`. -/
def castleOracle : Oracle where
  Game := Unit
  OMove := Unit
  mkGame := fun _ => some ()
  decode := fun _ tok => if tok = "e1g1" then some () else none
  doMove := fun _ _ => some ()
  moveString := fun _ => "e1g1"
  boardOf := fun _ => castledBoard
  newGame := ()
  encodeSAN := fun _ _ => ""
  checkmate := fun _ => false
  posOf := fun _ => trivPos

/-- C2 counterexample: with White to move, "moving" the *Black* king
e8→g8 is a wrong-color request, yet `MovePiece` returns true and
mutates the state: the failed decode falls into the castling branch,
which submits the `turn`-colored token `e1g1`, and White's castle is
applied instead. -/
theorem movePiece_wrong_color_counterexample :
    movePiece castleOracle ⟨preCastleBoard, [], -1, -1⟩ 0 4 0 6 Color.White =
      MoveResult.ok true ⟨castledBoard, ["e1g1"], -1, -1⟩ ∧
    (cell preCastleBoard 0 4).typ = PieceType.King ∧
    (cell preCastleBoard 0 4).color = Color.Black ∧
    Color.Black ≠ Color.White ∧
    castledBoard ≠ preCastleBoard :=
  ⟨rfl, by decide, by decide, by decide, by decide⟩

/-- Witness for C2's amended statement: on the standard board the
rejection fires for an out-of-bounds source, for `from = to`, and for an
empty source square. -/
theorem movePiece_rejects_witness :
    movePiece (rejectOracle newChessBoard) ⟨newChessBoard, [], -1, -1⟩ (-1) 0 0 0 Color.White =
      MoveResult.ok false ⟨newChessBoard, [], -1, -1⟩ ∧
    movePiece (rejectOracle newChessBoard) ⟨newChessBoard, [], -1, -1⟩ 6 0 6 0 Color.White =
      MoveResult.ok false ⟨newChessBoard, [], -1, -1⟩ ∧
    movePiece (rejectOracle newChessBoard) ⟨newChessBoard, [], -1, -1⟩ 3 3 4 4 Color.White =
      MoveResult.ok false ⟨newChessBoard, [], -1, -1⟩ :=
  ⟨(movePiece_rejects _ _ _ _ _ _ _).1 (by decide),
   (movePiece_rejects _ _ _ _ _ _ _).2.2 () (by decide) rfl rfl (Or.inl (by decide)),
   (movePiece_rejects _ _ _ _ _ _ _).2.2 () (by decide) rfl rfl (Or.inr (Or.inl (by decide)))⟩

/-- The fixed token the castling branch submits, selected by the side to
move and the destination column. -/
def castleToken (turn : Color) (toCol : Int) : String :=
  if toCol = 6 then (if turn = Color.Black then "e8g8" else "e1g1")
  else (if turn = Color.Black then "e8c8" else "e1c1")

/-- C8: when the oracle rejects the raw square-pair token and the source
piece is a King moving exactly two columns within its row to column 6 or
2, `MovePiece` validates the fixed castling token for the side to move
instead (irrespective of the literal squares requested); if the oracle
decodes and applies it, the board is synced from the oracle, the
castling token is appended to the history, the en-passant target is
cleared, and true is returned. -/
theorem movePiece_castle_fallback (O : Oracle) (s : MoveState) (fr fc tr tc : Int)
    (turn : Color) (game : O.Game) (cm : O.OMove) (game' : O.Game)
    (hnb : ¬(fr < 0 ∨ fr > 7 ∨ fc < 0 ∨ fc > 7 ∨ tr < 0 ∨ tr > 7 ∨ tc < 0 ∨ tc > 7))
    (hmk : O.mkGame (toFEN s.board turn s.epRow s.epCol) = some game)
    (hdec : O.decode game (rawToken s.board fr fc tr tc) = none)
    (hking : (cell s.board fr fc).typ = PieceType.King)
    (hrow : fr = tr)
    (hcols : (fc - tc).natAbs = 2)
    (htc : tc = 6 ∨ tc = 2)
    (hcdec : O.decode game (castleToken turn tc) = some cm)
    (hmv : O.doMove game cm = some game')
    (hstr : O.moveString cm = castleToken turn tc) :
    movePiece O s fr fc tr tc turn =
      MoveResult.ok true ⟨O.boardOf game', s.hist ++ [castleToken turn tc], -1, -1⟩ := by
  have hsep : setEnPassantSquare (cell s.board fr fc) fr fc tr tc s.epRow s.epCol = (-1, -1) := by
    unfold setEnPassantSquare
    rw [if_neg (fun hm => by rw [hking] at hm; exact absurd hm.1 (by decide))]
  unfold movePiece
  rw [if_neg hnb]
  simp only [hmk, hdec]
  rw [if_pos ⟨hking, hrow, hcols⟩]
  rcases htc with h | h <;> subst h
  · rw [if_pos rfl]
    by_cases hb : turn = Color.Black
    · have hct : castleToken turn 6 = "e8g8" := by simp [castleToken, hb]
      rw [hct] at hcdec hstr
      rw [if_pos hb, hcdec, hct]
      simp only [Option.some_bind, hmv, Option.map_some', hstr, hsep]
    · have hct : castleToken turn 6 = "e1g1" := by simp [castleToken, hb]
      rw [hct] at hcdec hstr
      rw [if_neg hb, hcdec, hct]
      simp only [Option.some_bind, hmv, Option.map_some', hstr, hsep]
  · rw [if_neg (show ¬(2 : Int) = 6 by decide), if_pos rfl]
    by_cases hb : turn = Color.Black
    · have hct : castleToken turn 2 = "e8c8" := by simp [castleToken, hb]
      rw [hct] at hcdec hstr
      rw [if_pos hb, hcdec, hct]
      simp only [Option.some_bind, hmv, Option.map_some', hstr, hsep]
    · have hct : castleToken turn 2 = "e1c1" := by simp [castleToken, hb]
      rw [hct] at hcdec hstr
      rw [if_neg hb, hcdec, hct]
      simp only [Option.some_bind, hmv, Option.map_some', hstr, hsep]

/-- Witness for C8 at the castling scenario. -/
theorem movePiece_castle_fallback_witness :
    movePiece castleOracle ⟨preCastleBoard, [], -1, -1⟩ 0 4 0 6 Color.White =
      MoveResult.ok true ⟨castledBoard, [] ++ ["e1g1"], -1, -1⟩ :=
  movePiece_castle_fallback castleOracle ⟨preCastleBoard, [], -1, -1⟩ 0 4 0 6 Color.White
    () () () (by decide) rfl rfl (by decide) rfl (by decide) (Or.inl rfl) rfl rfl rfl

/-- Every successful `MovePiece` return passes the source piece and the
move coordinates to `setEnPassantSquare`, whose result becomes the new
target. -/
theorem movePiece_ep_after_success (O : Oracle) (s : MoveState) (fr fc tr tc : Int)
    (turn : Color) (s' : MoveState)
    (hok : movePiece O s fr fc tr tc turn = MoveResult.ok true s') :
    (s'.epRow, s'.epCol) =
      setEnPassantSquare (cell s.board fr fc) fr fc tr tc s.epRow s.epCol := by
  unfold movePiece at hok
  iterate 12 all_goals try split at hok
  all_goals try exact MoveResult.noConfusion hok
  all_goals injection hok with hb hs
  all_goals first
    | exact absurd hb (by decide)
    | rw [← hs]

/-- C3: the en-passant target starts as `(-1,-1)`; after a successful
`MovePiece` of a defined-color piece it equals the square behind the
destination (`toRow+1` for a White mover, `toRow-1` for a Black mover)
exactly when the moved piece was a Pawn displaced two rows in the same
column, and is `(-1,-1)` otherwise. -/
theorem en_passant_tracking (O : Oracle) (s : MoveState) (fr fc tr tc : Int)
    (turn : Color) (s' : MoveState) :
    initialEnPassant = (-1, -1) ∧
    ((cell s.board fr fc).color ≠ Color.Undefined →
      movePiece O s fr fc tr tc turn = MoveResult.ok true s' →
      (s'.epRow, s'.epCol) =
        (if (cell s.board fr fc).typ = PieceType.Pawn ∧ (fr - tr).natAbs = 2 ∧ fc = tc then
          (if (cell s.board fr fc).color = Color.White then (tr + 1, tc) else (tr - 1, tc))
        else ((-1 : Int), (-1 : Int)))) := by
  refine ⟨rfl, fun hcol hok => ?_⟩
  rw [movePiece_ep_after_success O s fr fc tr tc turn s' hok]
  unfold setEnPassantSquare
  split_ifs with h1 h2 h3 <;> try rfl
  cases hcc : (cell s.board fr fc).color <;> simp_all

/-- Witness for C3: White's double push e2–e4 through an accepting
oracle yields the target (5,4). -/
theorem en_passant_tracking_witness :
    initialEnPassant = (-1, -1) ∧
    (((5 : Int), (4 : Int)) =
      (if (cell newChessBoard 6 4).typ = PieceType.Pawn ∧ ((6 : Int) - 4).natAbs = 2 ∧
          ((4 : Int) = (4 : Int)) then
        (if (cell newChessBoard 6 4).color = Color.White then ((4 : Int) + 1, (4 : Int))
         else ((4 : Int) - 1, (4 : Int)))
      else ((-1 : Int), (-1 : Int)))) := by
  have h := en_passant_tracking (acceptOracle boardAfterE4 "e2e4")
    ⟨newChessBoard, [], -1, -1⟩ 6 4 4 4 Color.White ⟨boardAfterE4, ["e2e4"], 5, 4⟩
  exact ⟨h.1, h.2 (by decide) rfl⟩

/-! ## The SAN history renderer (`history.GetMoveHistorySAN`) -/

/-- The `#`/`+` annotation appended after a decoded move has been played
against the replay game: `#` on the oracle's checkmate query, else `+`
when the independent check detector reports check. -/
def annotateSAN (O : Oracle) (san : String) (g : O.Game) : String :=
  if O.checkmate g then san ++ "#"
  else if isInCheck (O.posOf g) then san ++ "+" else san

/-- Rendering of one raw token (the duplicated White/Black block of the
Go loop): a decodable token is SAN-encoded against the current position,
played (the `game.Move` error is discarded), and annotated; a token that
fails to decode renders as its raw literal with the game unchanged. -/
def renderHalf (O : Oracle) (g : O.Game) (tok : String) : String × O.Game :=
  match O.decode g tok with
  | none => (tok, g)
  | some m =>
    let g' := (O.doMove g m).getD g
    (annotateSAN O (O.encodeSAN g m) g', g')

/-- The numbered-line loop of `GetMoveHistorySAN`: two tokens per line;
the Black half is omitted when there is no Black token or its rendering
is the empty string (`if blackSAN != ""`). -/
def sanLines (O : Oracle) (g : O.Game) (moveNum : Nat) : List String → List String
  | [] => []
  | w :: rest =>
    match rest with
    | [] => [toString moveNum ++ ". " ++ (renderHalf O g w).1]
    | btok :: rest' =>
      (if (renderHalf O (renderHalf O g w).2 btok).1 ≠ "" then
        toString moveNum ++ ". " ++ (renderHalf O g w).1 ++ " " ++
          (renderHalf O (renderHalf O g w).2 btok).1
       else toString moveNum ++ ". " ++ (renderHalf O g w).1) ::
        sanLines O (renderHalf O (renderHalf O g w).2 btok).2 (moveNum + 1) rest'

/-- Model of `history.GetMoveHistorySAN`: replay the raw token log from a fresh
game, numbering from 1. -/
def getMoveHistorySAN (O : Oracle) (raw : List String) : List String :=
  sanLines O O.newGame 1 raw

/-- The renderer emits one line per two tokens, rounding up. -/
theorem sanLines_length (O : Oracle) : ∀ (g : O.Game) (moveNum : Nat) (toks : List String),
    (sanLines O g moveNum toks).length = (toks.length + 1) / 2
  | _, _, [] => by simp [sanLines]
  | _, _, [_] => by simp [sanLines]
  | g, moveNum, w :: btok :: rest => by
    simp only [sanLines, List.length_cons]
    rw [sanLines_length O (renderHalf O (renderHalf O g w).2 btok).2 (moveNum + 1) rest]
    omega

/-- C7 (amended): the rendered history has exactly `⌈n/2⌉` lines; a full
pair renders as `"N. white black"` unless the Black half renders empty,
in which case (as for a trailing odd White token) the line is
`"N. white"`; a token the oracle cannot decode appears verbatim, so a
lone undecodable token `t` yields exactly `["N. t"]`. -/
theorem getMoveHistorySAN_format (O : Oracle) (g : O.Game) :
    (∀ (raw : List String), (getMoveHistorySAN O raw).length = (raw.length + 1) / 2) ∧
    (∀ (moveNum : Nat) (w btok : String) (rest : List String),
      sanLines O g moveNum (w :: btok :: rest) =
        (if (renderHalf O (renderHalf O g w).2 btok).1 ≠ "" then
          toString moveNum ++ ". " ++ (renderHalf O g w).1 ++ " " ++
            (renderHalf O (renderHalf O g w).2 btok).1
         else toString moveNum ++ ". " ++ (renderHalf O g w).1) ::
          sanLines O (renderHalf O (renderHalf O g w).2 btok).2 (moveNum + 1) rest) ∧
    (∀ (tok : String) (gv : O.Game), O.decode gv tok = none →
      (renderHalf O gv tok).1 = tok) ∧
    (∀ (moveNum : Nat) (tok : String), O.decode g tok = none →
      sanLines O g moveNum [tok] = [toString moveNum ++ ". " ++ tok]) := by
  refine ⟨fun raw => sanLines_length O O.newGame 1 raw, fun _ _ _ _ => rfl, ?_, ?_⟩
  · intro tok gv hdec
    simp [renderHalf, hdec]
  · intro moveNum tok hdec
    simp [sanLines, renderHalf, hdec]

/-- Witness for C7's amended statement: the raw log `["invalid"]`
renders as exactly `["1. invalid"]` (the oracle rejects the token), and
a two-token log has one line. -/
theorem getMoveHistorySAN_format_witness :
    getMoveHistorySAN (rejectOracle newChessBoard) ["invalid"] = ["1. invalid"] ∧
    (getMoveHistorySAN (rejectOracle newChessBoard) ["e2e4", "e7e5"]).length = 1 := by
  constructor
  · have h := (getMoveHistorySAN_format (rejectOracle newChessBoard)
      (rejectOracle newChessBoard).newGame).2.2.2 1 "invalid" rfl
    simpa [getMoveHistorySAN] using h
  · exact (getMoveHistorySAN_format (rejectOracle newChessBoard)
      (rejectOracle newChessBoard).newGame).1 ["e2e4", "e7e5"]

/-- C7 counterexample: a raw log whose second token is the empty string
(both tokens fail to decode and render verbatim) produces the line
`"1. "` — the White-only format — not the claimed two-half line
`"1.  "`, because the code collapses an empty Black half. -/
theorem getMoveHistorySAN_empty_black_counterexample :
    getMoveHistorySAN (rejectOracle newChessBoard) ["", ""] = ["1. "] ∧
    ("1. " : String) ≠ "1.  " :=
  ⟨rfl, by decide⟩

/-- C10: a cursor with both coordinates in `[0,7]` stays in `[0,7]` after
`Cursor.Move`, and each axis updates independently: the row becomes
`row + dRow` exactly when that sum lies in `[0,7]` (else it is unchanged),
and likewise for the column. -/
theorem cursor_move_clamps (c : Cursor) (dRow dCol : Int)
    (hr : 0 ≤ c.row ∧ c.row < 8) (hc : 0 ≤ c.col ∧ c.col < 8) :
    (0 ≤ (c.move dRow dCol).row ∧ (c.move dRow dCol).row < 8) ∧
    (0 ≤ (c.move dRow dCol).col ∧ (c.move dRow dCol).col < 8) ∧
    (c.move dRow dCol).row =
      (if 0 ≤ c.row + dRow ∧ c.row + dRow < 8 then c.row + dRow else c.row) ∧
    (c.move dRow dCol).col =
      (if 0 ≤ c.col + dCol ∧ c.col + dCol < 8 then c.col + dCol else c.col) := by
  unfold Cursor.move
  refine ⟨?_, ?_, rfl, rfl⟩ <;> dsimp only <;> split <;> omega

/-- Witness for C10 at a concrete cursor: from `(0,0)`, the delta
`(-1, 3)` is rejected on the row axis but applied on the column axis. -/
theorem cursor_move_clamps_witness :
    (0 ≤ (Cursor.move ⟨0, 0, false⟩ (-1) 3).row ∧ (Cursor.move ⟨0, 0, false⟩ (-1) 3).row < 8) ∧
    (0 ≤ (Cursor.move ⟨0, 0, false⟩ (-1) 3).col ∧ (Cursor.move ⟨0, 0, false⟩ (-1) 3).col < 8) ∧
    (Cursor.move ⟨0, 0, false⟩ (-1) 3).row =
      (if (0 : Int) ≤ 0 + -1 ∧ (0 : Int) + -1 < 8 then 0 + -1 else 0) ∧
    (Cursor.move ⟨0, 0, false⟩ (-1) 3).col =
      (if (0 : Int) ≤ 0 + 3 ∧ (0 : Int) + 3 < 8 then 0 + 3 else 0) :=
  cursor_move_clamps ⟨0, 0, false⟩ (-1) 3 (by decide) (by decide)

end TerminalChess
